import Mathlib

/-!
Verification of the leaderboard archiver (`src/archiver.py`) against its
natural-language specification.  The Python source is shallowly embedded:
strings are `List Char`, Python dicts keyed by strings are insertion-ordered
association lists, the network and the filesystem are modelled by explicit
event values, and exceptions become `Except` / `Option`.
-/

/-- The character `{` (written via its code point to keep it out of string
literals). -/
def lbrace : Char := Char.ofNat 123

/-- The character `}` (written via its code point). -/
def rbrace : Char := Char.ofNat 125

/-- Fuel-driven decimal rendering of a natural number, least significant digit
computed last; models Python `str(int)` / f-string formatting of a nonnegative
`int`.  `fuel` bounds the recursion depth. -/
def toDecimalAux : Nat → Nat → List Char
  | 0, _ => []
  | fuel + 1, n =>
    if n < 10 then [Nat.digitChar n]
    else toDecimalAux fuel (n / 10) ++ [Nat.digitChar (n % 10)]

/-- Decimal rendering of a natural number, as Python `str(n)` for `n ≥ 0`. -/
def toDecimal (n : Nat) : List Char := toDecimalAux (n + 1) n

/-- `range(1, 21)` from `archive_all_combinations`: display types 1..20. -/
def display_types : List Nat := (List.range 20).map (· + 1)

/-- `range(0, 4)` from `archive_all_combinations`: control types 0..3. -/
def control_types : List Nat := List.range 4

/-- `range(1, 4)` from `archive_all_combinations`: pb types 1..3. -/
def pb_types : List Nat := (List.range 3).map (· + 1)

/-- The list comprehension
`[(dt, ct, pt) for dt in display_types for ct in control_types for pt in pb_types]`
from `archive_all_combinations` (lines 116–121). -/
def combinations : List (Nat × Nat × Nat) :=
  display_types.flatMap fun dt =>
    control_types.flatMap fun ct =>
      pb_types.map fun pt => (dt, ct, pt)

/-- The aggregation key `f"{display_type}_{control_type}_{pb_type}"`
(line 145). -/
def keyOf (d c p : Nat) : List Char :=
  toDecimal d ++ '_' :: toDecimal c ++ '_' :: toDecimal p

/-- What the transport layer hands back for one request: either an HTTP
response (status, body text, status text) or a raised exception carrying its
string rendering. -/
inductive HttpEvent where
  | response (status : Nat) (text : List Char) (statusText : List Char)
  | exn (detail : List Char)
deriving DecidableEq, Repr

/-- The dictionary returned by `get_scores`: `status` is the `"status"` entry,
`data` is the optional `"data"` entry (present only on the success path),
`message` is the optional `"message"` entry, and the three parameter fields are
echoed back. -/
structure FetchResult where
  status : Bool
  data : Option (List Char)
  message : Option (List Char)
  display_type : Nat
  control_type : Nat
  pb_type : Nat
deriving DecidableEq, Repr

/-- Shallow embedding of `LeaderboardArchiver.get_scores` (lines 29–69): given
the transport event for the POST, a 200 response yields
`{status: True, data: text, ...}`; any other status yields
`{status: False, message: f"Error: ${status} ${statusText}", ...}` (note the
literal dollar signs in the f-string); an exception caught by the
`except Exception` clause yields
`{status: False, message: f"Request failed: {e}", ...}`. -/
def get_scores (ev : HttpEvent) (display_type control_type pb_type : Nat) :
    FetchResult :=
  match ev with
  | .response status text statusText =>
    if status = 200 then
      ⟨true, some text, none, display_type, control_type, pb_type⟩
    else
      ⟨false, none,
        some (("Error: $").toList ++ toDecimal status ++ (" $").toList ++
          statusText),
        display_type, control_type, pb_type⟩
  | .exn detail =>
    ⟨false, none, some (("Request failed: ").toList ++ detail),
      display_type, control_type, pb_type⟩

/-- The aggregation state of `archive_all_combinations`: the two counters and
the `all_data` dict, modelled as an insertion-ordered association list. -/
structure AggState where
  successful : Nat
  failed : Nat
  all_data : List (List Char × List Char)
deriving DecidableEq, Repr

/-- Python dict assignment `m[k] = v`: overwrite in place if the key is
present (keeping its position), otherwise append at the end. -/
def dictInsert (m : List (List Char × List Char)) (k v : List Char) :
    List (List Char × List Char) :=
  match m with
  | [] => [(k, v)]
  | (k', v') :: rest =>
    if k' = k then (k, v) :: rest else (k', v') :: dictInsert rest k v

/-- One iteration of the result-consumption loop (lines 140–150): on
`result["status"] and "data" in result`, store the body under the derived key
and bump `successful`; otherwise bump `failed`. -/
def aggStep (st : AggState) (r : FetchResult) : AggState :=
  if r.status && r.data.isSome then
    { st with
      all_data :=
        dictInsert st.all_data (keyOf r.display_type r.control_type r.pb_type)
          (r.data.getD []),
      successful := st.successful + 1 }
  else
    { st with failed := st.failed + 1 }

/-- Consuming a whole sequence of completed fetch results, starting from zero
counters and an empty dict. -/
def aggregate (rs : List FetchResult) : AggState :=
  rs.foldl aggStep ⟨0, 0, []⟩

/-- Lowercase hexadecimal digit, as produced by Python `'\\u{0:04x}'.format`. -/
def hexDigitChar (n : Nat) : Char :=
  match n with
  | 0 => '0' | 1 => '1' | 2 => '2' | 3 => '3' | 4 => '4'
  | 5 => '5' | 6 => '6' | 7 => '7' | 8 => '8' | 9 => '9'
  | 10 => 'a' | 11 => 'b' | 12 => 'c' | 13 => 'd' | 14 => 'e' | 15 => 'f'
  | _ => '0'

/-- Four-digit lowercase hex rendering of `n < 0x10000`. -/
def hex4 (n : Nat) : List Char :=
  [hexDigitChar (n / 4096 % 16), hexDigitChar (n / 256 % 16),
   hexDigitChar (n / 16 % 16), hexDigitChar (n % 16)]

/-- How `json.dumps` (default `ensure_ascii=True`) renders one character of a
string: the two-character escapes for quote, backslash and the five named
control characters; printable ASCII verbatim; `\uXXXX` for other code points
below `0x10000`; and a UTF-16 surrogate pair of `\u` escapes above it. -/
def escapeChar (c : Char) : List Char :=
  if c = '"' then ['\\', '"']
  else if c = '\\' then ['\\', '\\']
  else if c = '\n' then ['\\', 'n']
  else if c = '\r' then ['\\', 'r']
  else if c = '\t' then ['\\', 't']
  else if c.toNat = 8 then ['\\', 'b']
  else if c.toNat = 12 then ['\\', 'f']
  else if 32 ≤ c.toNat ∧ c.toNat ≤ 126 then [c]
  else if c.toNat < 65536 then '\\' :: 'u' :: hex4 c.toNat
  else
    ('\\' :: 'u' :: hex4 (55296 + (c.toNat - 65536) / 1024)) ++
    ('\\' :: 'u' :: hex4 (56320 + (c.toNat - 65536) % 1024))

/-- `json.dumps` escaping of a whole string body. -/
def escapeStr (s : List Char) : List Char := s.flatMap escapeChar

/-- A JSON string literal: the escaped body between double quotes. -/
def jstring (s : List Char) : List Char := '"' :: escapeStr s ++ ['"']

/-- The comma-separated `"key":"value"` entries of a JSON object whose values
are all strings, with the `(',', ':')` separators passed to `json.dumps`
(no whitespace). -/
def serializeEntries : List (List Char × List Char) → List Char
  | [] => []
  | [(k, v)] => jstring k ++ ':' :: jstring v
  | (k, v) :: e :: rest =>
    jstring k ++ ':' :: jstring v ++ ',' :: serializeEntries (e :: rest)

/-- A JSON object of string values, braces included. -/
def serializeDoc (doc : List (List Char × List Char)) : List Char :=
  lbrace :: serializeEntries doc ++ [rbrace]

/-- The literal characters `{"timestamp":` opening the archive object. -/
def headerChars : List Char := lbrace :: ("\"timestamp\":").toList

/-- The literal characters `,"data":` between the two archive fields. -/
def midChars : List Char := (",\"data\":").toList

/-- `json.dumps({"timestamp": ts, "data": all_data}, separators=(',', ':'))`
(line 81): the exact character sequence of the pre-compression payload. -/
def serializePayload (ts : List Char) (doc : List (List Char × List Char)) :
    List Char :=
  headerChars ++ jstring ts ++ midChars ++ serializeDoc doc ++ [rbrace]

/-- Numeric value of a hexadecimal digit character (either case), as accepted
by a JSON `\\uXXXX` escape. -/
def hexVal (c : Char) : Option Nat :=
  if 48 ≤ c.toNat ∧ c.toNat ≤ 57 then some (c.toNat - 48)
  else if 97 ≤ c.toNat ∧ c.toNat ≤ 102 then some (c.toNat - 87)
  else if 65 ≤ c.toNat ∧ c.toNat ≤ 70 then some (c.toNat - 55)
  else none

/-- Read four hex digits from the front of the input. -/
def parse4Hex : List Char → Option (Nat × List Char)
  | a :: b :: c :: d :: rest => do
    let x ← hexVal a
    let y ← hexVal b
    let z ← hexVal c
    let w ← hexVal d
    some (((x * 16 + y) * 16 + z) * 16 + w, rest)
  | _ => none

/-- Prepend a decoded character to a string-parse result. -/
def consChar (c : Char) (p : List Char × List Char) : List Char × List Char :=
  (c :: p.1, p.2)

/-- JSON string-body parser (the part after the opening quote), modelling how
`json.loads` reads a string: plain characters up to the closing quote, the
seven short escapes, `\\uXXXX` escapes, and surrogate-pair recombination.
Lone surrogates are rejected (they cannot be code points of the embedding's
strings).  `fuel` bounds the recursion; one unit is spent per decoded
character. -/
def parseStringBody : Nat → List Char → Option (List Char × List Char)
  | 0, _ => none
  | _ + 1, [] => none
  | fuel + 1, c :: rest =>
    if c = '"' then some ([], rest)
    else if c = '\\' then
      match rest with
      | [] => none
      | e :: rest2 =>
        if e = '"' then consChar '"' <$> parseStringBody fuel rest2
        else if e = '\\' then consChar '\\' <$> parseStringBody fuel rest2
        else if e = '/' then consChar '/' <$> parseStringBody fuel rest2
        else if e = 'n' then consChar '\n' <$> parseStringBody fuel rest2
        else if e = 'r' then consChar '\r' <$> parseStringBody fuel rest2
        else if e = 't' then consChar '\t' <$> parseStringBody fuel rest2
        else if e = 'b' then
          consChar (Char.ofNat 8) <$> parseStringBody fuel rest2
        else if e = 'f' then
          consChar (Char.ofNat 12) <$> parseStringBody fuel rest2
        else if e = 'u' then
          match parse4Hex rest2 with
          | none => none
          | some (n, rest3) =>
            if 55296 ≤ n ∧ n ≤ 56319 then
              match rest3 with
              | b1 :: b2 :: rest4 =>
                if b1 = '\\' ∧ b2 = 'u' then
                  match parse4Hex rest4 with
                  | none => none
                  | some (m, rest5) =>
                    if 56320 ≤ m ∧ m ≤ 57343 then
                      consChar
                          (Char.ofNat ((n - 55296) * 1024 + (m - 56320) + 65536))
                        <$> parseStringBody fuel rest5
                    else none
                else none
              | _ => none
            else if 56320 ≤ n ∧ n ≤ 57343 then none
            else consChar (Char.ofNat n) <$> parseStringBody fuel rest3
        else none
    else if 32 ≤ c.toNat then consChar c <$> parseStringBody fuel rest
    else none

/-- Parse a JSON string literal (opening quote onward) from the front of the
input. -/
def parseJString (input : List Char) : Option (List Char × List Char) :=
  match input with
  | [] => none
  | c :: rest =>
    if c = '"' then parseStringBody (rest.length + 1) rest else none

/-- Parse the nonempty comma-separated entry list of a string-valued JSON
object, consuming the closing brace. -/
def parseEntriesAux : Nat → List Char → Option (List (List Char × List Char) × List Char)
  | 0, _ => none
  | fuel + 1, input => do
    let (k, r1) ← parseJString input
    match r1 with
    | [] => none
    | c :: r2 =>
      if c = ':' then do
        let (v, r3) ← parseJString r2
        match r3 with
        | [] => none
        | c2 :: r4 =>
          if c2 = ',' then
            (fun p => ((k, v) :: p.1, p.2)) <$> parseEntriesAux fuel r4
          else if c2 = rbrace then some ([(k, v)], r4)
          else none
      else none

/-- Parse a string-valued JSON object, braces included. -/
def parseObject (input : List Char) :
    Option (List (List Char × List Char) × List Char) :=
  match input with
  | [] => none
  | c :: rest =>
    if c = lbrace then
      match rest with
      | [] => none
      | c2 :: rest2 =>
        if c2 = rbrace then some ([], rest2)
        else parseEntriesAux (rest.length + 1) rest
    else none

/-- Consume an expected literal character sequence from the front of the
input, returning the remainder. -/
def expectLit : List Char → List Char → Option (List Char)
  | [], input => some input
  | _ :: _, [] => none
  | c :: cs, x :: xs => if x = c then expectLit cs xs else none

/-- Parse the full archive payload `{"timestamp": <string>, "data": <object>}`
exactly as `json.loads` would read what line 81 serializes, requiring the
input to be consumed completely. -/
def parsePayload (input : List Char) :
    Option (List Char × List (List Char × List Char)) := do
  let r1 ← expectLit headerChars input
  let (ts, r2) ← parseJString r1
  let r3 ← expectLit midChars r2
  let (doc, r4) ← parseObject r3
  let r5 ← expectLit [rbrace] r4
  if r5 = [] then some (ts, doc) else none

/-- Interface model of the external `lzma` codec at `preset=9` (line 93): an
explicit lossless byte-stream transformation.  Only the codec's round-trip
contract (`decompress ∘ compress = id`) is relevant to the program; the
transformation chosen here is an executable stand-in with that property. -/
def lzma_compress (payload : List Char) : List Char := payload.reverse

/-- Interface model of `lzma` decompression, inverse of `lzma_compress`. -/
def lzma_decompress (blob : List Char) : List Char := blob.reverse

/-- Which effectful steps inside the `try` block of
`compress_and_save_archive` fail, and with what exception text: directory
creation (line 85) and the compressed-file write (lines 93–94).  `none` means
the step succeeds. -/
structure WriterEnv where
  makedirs_error : Option (List Char)
  write_error : Option (List Char)
deriving DecidableEq, Repr

/-- The body of the `try` block of `compress_and_save_archive` (lines 74–102):
serialize `{timestamp, data}`, create the `archives` directory, compress and
write `archives/leaderboard_<date>.lzma`, and return the path.  Any raised
exception is propagated as `Except.error`. -/
def writerBody (env : WriterEnv) (date ts : List Char)
    (all_data : List (List Char × List Char)) : Except (List Char) (List Char) :=
  let _json_data := serializePayload ts all_data
  match env.makedirs_error with
  | some e => .error e
  | none =>
    let archive_path :=
      ("archives/leaderboard_").toList ++ date ++ (".lzma").toList
    match env.write_error with
    | some e => .error e
    | none => .ok archive_path

/-- Shallow embedding of `compress_and_save_archive` (lines 71–106): the
`try` body, with the `except Exception` clause mapping any failure to a
`logger.error("Failed to compress archive: ...")` message and a `None`
return value.  The result pairs the returned value with the error log lines
emitted. -/
def compress_and_save_archive (env : WriterEnv) (date ts : List Char)
    (all_data : List (List Char × List Char)) :
    Option (List Char) × List (List Char) :=
  match writerBody env date ts all_data with
  | .ok path => (some path, [])
  | .error e => (none, [("Failed to compress archive: ").toList ++ e])

/-- The archive decision at the end of `archive_all_combinations` (lines
157–162): when at least one fetch succeeded, hand `all_data` to the writer;
otherwise skip the writer entirely and log
`"No successful archives to compress!"`.  Returns the writer invocation's
argument (if any writer call happened) and the error log line. -/
def finalizeRun (env : WriterEnv) (date ts : List Char) (st : AggState) :
    Option (Option (List Char) × List (List Char)) × List (List Char) :=
  if st.successful > 0 then
    (some (compress_and_save_archive env date ts st.all_data), [])
  else
    (none, [("No successful archives to compress!").toList])

/-- Python truthiness test `not x` for an optional string: `None` and the
empty string are falsy. -/
def pyFalsy : Option (List Char) → Bool
  | none => true
  | some s => s.isEmpty

/-- The configured archiver produced by `LeaderboardArchiver.__init__`. -/
structure Archiver where
  auth_token : List Char
  dblink : List Char
  base_url : List Char
deriving DecidableEq, Repr

/-- Shallow embedding of `LeaderboardArchiver.__init__` (lines 20–27): read
`USER_TOKEN` and `DB_LINK` from the environment, raise
`ValueError("Missing required environment variables: USER_TOKEN and DB_LINK")`
when either is falsy (absent or empty), otherwise derive
`base_url = f"{dblink}/api/getScores"`. -/
def initArchiver (user_token db_link : Option (List Char)) :
    Except (List Char) Archiver :=
  if pyFalsy user_token || pyFalsy db_link then
    .error (("Missing required environment variables: USER_TOKEN and DB_LINK").toList)
  else
    .ok ⟨user_token.getD [], db_link.getD [],
      db_link.getD [] ++ ("/api/getScores").toList⟩

/-- The requests `main` causes to be issued (lines 173–181): constructing the
archiver inside the `try` block, a `ValueError` is caught and logged and no
fetch happens; on success, `archive_all_combinations` issues one request per
element of `combinations`. -/
def mainRequests (user_token db_link : Option (List Char)) :
    List (Nat × Nat × Nat) :=
  match initArchiver user_token db_link with
  | .error _ => []
  | .ok _ => combinations

set_option maxRecDepth 40000

/-- Membership in the generated combination list is exactly the advertised
triple of ranges. -/
theorem mem_combinations (d c p : Nat) :
    (d, c, p) ∈ combinations ↔ 1 ≤ d ∧ d ≤ 20 ∧ c ≤ 3 ∧ 1 ≤ p ∧ p ≤ 3 := by
  simp only [combinations, display_types, control_types, pb_types,
    List.mem_flatMap, List.mem_map, List.mem_range, Prod.mk.injEq]
  constructor
  · rintro ⟨dt, ⟨a, ha, rfl⟩, ct, hct, pt, ⟨b, hb, rfl⟩, rfl, rfl, rfl⟩
    omega
  · rintro ⟨h1, h2, h3, h4, h5⟩
    exact ⟨d, ⟨d - 1, by omega, by omega⟩, c, by omega, p,
      ⟨p - 1, by omega, by omega⟩, rfl, rfl, rfl⟩

/-- Decimal rendering is injective on the values a display type can take. -/
theorem toDecimal_inj_small : ∀ d1, d1 < 21 → ∀ d2, d2 < 21 →
    toDecimal d1 = toDecimal d2 → d1 = d2 := by decide

/-- A single decimal digit renders as one character. -/
theorem toDecimal_single (c : Nat) (h : c < 10) :
    toDecimal c = [Nat.digitChar c] := by
  simp [toDecimal, toDecimalAux, h]

/-- Digit characters are distinct for distinct digits. -/
theorem digitChar_inj_small : ∀ a, a < 10 → ∀ b, b < 10 →
    Nat.digitChar a = Nat.digitChar b → a = b := by decide

/-- On in-range parameter triples, equal derived keys force equal
components. -/
theorem keyOf_inj (d1 c1 p1 d2 c2 p2 : Nat)
    (hd1 : d1 < 21) (hc1 : c1 < 10) (hp1 : p1 < 10)
    (hd2 : d2 < 21) (hc2 : c2 < 10) (hp2 : p2 < 10)
    (h : keyOf d1 c1 p1 = keyOf d2 c2 p2) : d1 = d2 ∧ c1 = c2 ∧ p1 = p2 := by
  rw [keyOf, keyOf, toDecimal_single c1 hc1, toDecimal_single p1 hp1,
    toDecimal_single c2 hc2, toDecimal_single p2 hp2] at h
  have h' : toDecimal d1 ++ ['_', Nat.digitChar c1, '_', Nat.digitChar p1] =
      toDecimal d2 ++ ['_', Nat.digitChar c2, '_', Nat.digitChar p2] := by
    simpa using h
  obtain ⟨hA, hB⟩ := List.append_inj' h' rfl
  simp only [List.cons.injEq] at hB
  exact ⟨toDecimal_inj_small d1 hd1 d2 hd2 hA,
    digitChar_inj_small c1 hc1 c2 hc2 hB.2.1,
    digitChar_inj_small p1 hp1 p2 hp2 hB.2.2.2.1⟩

/-- The key derivation is injective on the parameter space. -/
theorem keyOf_inj_on_combinations :
    ∀ a ∈ combinations, ∀ b ∈ combinations,
      keyOf a.1 a.2.1 a.2.2 = keyOf b.1 b.2.1 b.2.2 → a = b := by
  rintro ⟨d1, c1, p1⟩ ha ⟨d2, c2, p2⟩ hb h
  rw [mem_combinations] at ha hb
  obtain ⟨e1, e2, e3⟩ := keyOf_inj d1 c1 p1 d2 c2 p2
    (by omega) (by omega) (by omega) (by omega) (by omega) (by omega) h
  simp [e1, e2, e3]

/-- Counters: every consumed outcome bumps exactly one counter. -/
theorem agg_total (rs : List FetchResult) : ∀ st : AggState,
    (rs.foldl aggStep st).successful + (rs.foldl aggStep st).failed =
      st.successful + st.failed + rs.length := by
  induction rs with
  | nil => intro st; simp
  | cons r rs ih =>
    intro st
    simp only [List.foldl_cons, List.length_cons]
    rw [ih]
    by_cases h : (r.status && r.data.isSome) = true
    · simp only [aggStep, if_pos h]; omega
    · simp only [aggStep, if_neg h]; omega

theorem agg_successful (rs : List FetchResult) : ∀ st : AggState,
    (rs.foldl aggStep st).successful =
      st.successful + (rs.countP fun r => r.status && r.data.isSome) := by
  induction rs with
  | nil => intro st; simp
  | cons r rs ih =>
    intro st
    simp only [List.foldl_cons, List.countP_cons]
    rw [ih]
    by_cases h : (r.status && r.data.isSome) = true
    · simp [aggStep, h]; omega
    · simp [aggStep, h]

theorem dictInsert_of_notMem (m : List (List Char × List Char)) (k v : List Char)
    (h : k ∉ m.map Prod.fst) : dictInsert m k v = m ++ [(k, v)] := by
  induction m with
  | nil => rfl
  | cons kv rest ih =>
    obtain ⟨k', v'⟩ := kv
    simp only [List.map_cons, List.mem_cons] at h
    push_neg at h
    simp only [dictInsert]
    rw [if_neg (fun hh => h.1 hh.symm), ih h.2]
    rfl

theorem agg_keys (rs : List FetchResult) : ∀ st : AggState,
    (∀ r ∈ rs, (r.status && r.data.isSome) = true →
      keyOf r.display_type r.control_type r.pb_type ∉ st.all_data.map Prod.fst) →
    ((rs.filter fun r => r.status && r.data.isSome).map
      (fun r => keyOf r.display_type r.control_type r.pb_type)).Nodup →
    (rs.foldl aggStep st).all_data.map Prod.fst =
      st.all_data.map Prod.fst ++
        (rs.filter fun r => r.status && r.data.isSome).map
          (fun r => keyOf r.display_type r.control_type r.pb_type) := by
  induction rs with
  | nil => intro st _ _; simp
  | cons r rs ih =>
    intro st hfresh hnd
    by_cases h : (r.status && r.data.isSome) = true
    · simp only [List.foldl_cons, List.filter_cons, h, if_pos, List.map_cons]
      have hk : keyOf r.display_type r.control_type r.pb_type ∉
          st.all_data.map Prod.fst :=
        hfresh r (List.mem_cons_self r rs) h
      have hstep : (aggStep st r).all_data = st.all_data ++
          [(keyOf r.display_type r.control_type r.pb_type, r.data.getD [])] := by
        simp only [aggStep, if_pos h]
        exact dictInsert_of_notMem _ _ _ hk
      simp only [List.filter_cons, h, if_pos, List.map_cons] at hnd
      rw [ih (aggStep st r) ?_ hnd.of_cons]
      · rw [hstep]
        simp
      · intro r' hr' hs'
        rw [hstep]
        simp only [List.map_append, List.map_cons, List.map_nil, List.mem_append,
          List.mem_singleton]
        push_neg
        constructor
        · exact hfresh r' (List.mem_cons_of_mem r hr') hs'
        · intro heq
          have : keyOf r'.display_type r'.control_type r'.pb_type ∈
              (rs.filter fun r => r.status && r.data.isSome).map
                (fun r => keyOf r.display_type r.control_type r.pb_type) := by
            exact List.mem_map_of_mem _ (List.mem_filter.mpr ⟨hr', hs'⟩)
          rw [List.nodup_cons] at hnd
          exact hnd.1 (heq ▸ this)
    · simp only [List.foldl_cons, List.filter_cons, h]
      simp only [Bool.false_eq_true, if_false]
      have hstep : (aggStep st r).all_data = st.all_data := by
        simp only [aggStep, if_neg h]
      rw [ih (aggStep st r) ?_ ?_]
      · rw [hstep]
      · intro r' hr' hs'
        rw [hstep]
        exact hfresh r' (List.mem_cons_of_mem r hr') hs'
      · simpa only [List.filter_cons, h, Bool.false_eq_true, if_false] using hnd

/-- Success keys are pairwise distinct when the consumed results carry
pairwise-distinct parameter triples from the parameter space. -/
theorem successKeys_nodup (rs : List FetchResult)
    (hmem : ∀ r ∈ rs, (r.display_type, r.control_type, r.pb_type) ∈ combinations)
    (hnd : (rs.map fun r => (r.display_type, r.control_type, r.pb_type)).Nodup) :
    ((rs.filter fun r => r.status && r.data.isSome).map
      (fun r => keyOf r.display_type r.control_type r.pb_type)).Nodup := by
  have hsub : ((rs.filter fun r => r.status && r.data.isSome).map
      (fun r => (r.display_type, r.control_type, r.pb_type))).Sublist
      (rs.map fun r => (r.display_type, r.control_type, r.pb_type)) :=
    (List.filter_sublist rs).map _
  have hnd2 := hnd.sublist hsub
  have h3 : (((rs.filter fun r => r.status && r.data.isSome).map
      (fun r => (r.display_type, r.control_type, r.pb_type))).map
      (fun t => keyOf t.1 t.2.1 t.2.2)).Nodup := by
    apply List.Nodup.map_on _ hnd2
    intro x hx y hy hxy
    have hx2 : x ∈ combinations := by
      obtain ⟨r, hr, rfl⟩ := List.mem_map.mp hx
      exact hmem r (List.mem_of_mem_filter hr)
    have hy2 : y ∈ combinations := by
      obtain ⟨r, hr, rfl⟩ := List.mem_map.mp hy
      exact hmem r (List.mem_of_mem_filter hr)
    exact keyOf_inj_on_combinations x hx2 y hy2 hxy
  simpa [List.map_map, Function.comp] using h3

/-- C2: `archive_all_combinations` enumerates exactly 240 distinct parameter
descriptors, every triple `(d, c, p)` with `d ∈ [1, 20]`, `c ∈ [0, 3]`,
`p ∈ [1, 3]` appearing exactly once, in the fixed outer-to-inner order
display_type, then control_type, then pb_type (descriptor `i` is
`(1 + i / 12, i % 12 / 3, 1 + i % 3)`). -/
theorem parameter_space_exact :
    combinations.length = 240 ∧ combinations.Nodup ∧
    (∀ d c p : Nat, (d, c, p) ∈ combinations ↔
      1 ≤ d ∧ d ≤ 20 ∧ c ≤ 3 ∧ 1 ≤ p ∧ p ≤ 3) ∧
    ∀ i : Fin 240, combinations.getD i.val (0, 0, 0) =
      (1 + i.val / 12, i.val % 12 / 3, 1 + i.val % 3) :=
  ⟨by decide, by decide, mem_combinations, by decide⟩

/-- C3: after the aggregation loop consumes any sequence of outcomes whose
descriptors are distinct members of the parameter space,
`successful + failed` equals the number of outcomes consumed, `all_data` has
exactly `successful` entries whose keys are the derived `"d_c_p"` strings of
the Success outcomes in consumption order, and the key derivation never
collides on distinct descriptors of the parameter space. -/
theorem aggregation_invariant (rs : List FetchResult)
    (hmem : ∀ r ∈ rs, (r.display_type, r.control_type, r.pb_type) ∈ combinations)
    (hnd : (rs.map fun r => (r.display_type, r.control_type, r.pb_type)).Nodup) :
    (aggregate rs).successful + (aggregate rs).failed = rs.length ∧
    (aggregate rs).all_data.length = (aggregate rs).successful ∧
    (aggregate rs).all_data.map Prod.fst =
      (rs.filter fun r => r.status && r.data.isSome).map
        (fun r => keyOf r.display_type r.control_type r.pb_type) ∧
    ∀ a ∈ combinations, ∀ b ∈ combinations,
      a ≠ b → keyOf a.1 a.2.1 a.2.2 ≠ keyOf b.1 b.2.1 b.2.2 := by
  have hkeysnd := successKeys_nodup rs hmem hnd
  have hkeys := agg_keys rs ⟨0, 0, []⟩ (by intro r _ _; simp) hkeysnd
  simp only [List.map_nil, List.nil_append] at hkeys
  refine ⟨?_, ?_, ?_, ?_⟩
  · simpa [aggregate] using agg_total rs ⟨0, 0, []⟩
  · have hlen : (aggregate rs).all_data.length =
        ((rs.filter fun r => r.status && r.data.isSome).map
          (fun r => keyOf r.display_type r.control_type r.pb_type)).length := by
      rw [aggregate, ← hkeys, List.length_map]
    rw [hlen, List.length_map, ← List.countP_eq_length_filter]
    simpa [aggregate] using (agg_successful rs ⟨0, 0, []⟩).symm
  · exact hkeys
  · intro a ha b hb hne heq
    exact hne (keyOf_inj_on_combinations a ha b hb heq)

/-- C3 witness: the invariant instantiated on one 200 response and one
transport failure with concrete distinct descriptors. -/
theorem aggregation_invariant_witness :
    (∀ r ∈ [get_scores (.response 200 ("ok").toList []) 1 0 1,
            get_scores (.exn ("timeout").toList) 1 0 2],
      (r.display_type, r.control_type, r.pb_type) ∈ combinations) ∧
    (([get_scores (.response 200 ("ok").toList []) 1 0 1,
       get_scores (.exn ("timeout").toList) 1 0 2].map
        fun r => (r.display_type, r.control_type, r.pb_type)).Nodup) ∧
    ((aggregate [get_scores (.response 200 ("ok").toList []) 1 0 1,
                 get_scores (.exn ("timeout").toList) 1 0 2]).successful +
      (aggregate [get_scores (.response 200 ("ok").toList []) 1 0 1,
                  get_scores (.exn ("timeout").toList) 1 0 2]).failed = 2 ∧
     (aggregate [get_scores (.response 200 ("ok").toList []) 1 0 1,
                 get_scores (.exn ("timeout").toList) 1 0 2]).all_data.length =
       (aggregate [get_scores (.response 200 ("ok").toList []) 1 0 1,
                   get_scores (.exn ("timeout").toList) 1 0 2]).successful ∧
     (aggregate [get_scores (.response 200 ("ok").toList []) 1 0 1,
                 get_scores (.exn ("timeout").toList) 1 0 2]).all_data.map Prod.fst =
       ([get_scores (.response 200 ("ok").toList []) 1 0 1,
         get_scores (.exn ("timeout").toList) 1 0 2].filter
          fun r => r.status && r.data.isSome).map
            (fun r => keyOf r.display_type r.control_type r.pb_type) ∧
     ∀ a ∈ combinations, ∀ b ∈ combinations,
       a ≠ b → keyOf a.1 a.2.1 a.2.2 ≠ keyOf b.1 b.2.1 b.2.2) :=
  ⟨by decide, by decide, aggregation_invariant _ (by decide) (by decide)⟩

/-- C1 counterexample: a 201 response (a 2xx status) is mapped to a Failure,
not to a Success carrying the body, and a 404 response's failure reason is
`"Error: $404 $Not Found"`, not `"Error: 404"`. -/
theorem fetch_status_counterexample :
    200 ≤ 201 ∧ 201 < 300 ∧
    (get_scores (.response 201 ("body").toList ("Created").toList) 1 0 1).status
      = false ∧
    (get_scores (.response 404 ("x").toList ("Not Found").toList) 1 0 1).message
      = some (("Error: $404 $Not Found").toList) ∧
    ("Error: $404 $Not Found").toList ≠ ("Error: 404").toList := by
  decide

/-- C1 (amended): a response with status exactly 200 yields a Success carrying
the response text verbatim; a response with any other status (including other
2xx statuses) yields a Failure whose reason is the literal string
`"Error: $<status> $<statusText>"` (dollar signs included, with the decimal
status and the transport-supplied status text substituted). -/
theorem fetch_classification (status : Nat) (text statusText : List Char)
    (d c p : Nat) :
    (status = 200 →
      (get_scores (.response status text statusText) d c p).status = true ∧
      (get_scores (.response status text statusText) d c p).data = some text) ∧
    (status ≠ 200 →
      (get_scores (.response status text statusText) d c p).status = false ∧
      (get_scores (.response status text statusText) d c p).message =
        some (("Error: $").toList ++ toDecimal status ++ (" $").toList ++
          statusText)) := by
  constructor
  · intro h
    subst h
    simp [get_scores]
  · intro h
    simp [get_scores, h]

/-- C1 witness: the amended classification applied at a 200 response and at a
404 response. -/
theorem fetch_classification_witness :
    ((get_scores (.response 200 ("ok").toList []) 1 0 1).status = true ∧
     (get_scores (.response 200 ("ok").toList []) 1 0 1).data =
       some (("ok").toList)) ∧
    ((get_scores (.response 404 ("x").toList ("Not Found").toList) 1 0 1).status
        = false ∧
     (get_scores (.response 404 ("x").toList ("Not Found").toList) 1 0 1).message
        = some (("Error: $").toList ++ toDecimal 404 ++ (" $").toList ++
            ("Not Found").toList)) :=
  ⟨(fetch_classification 200 (("ok").toList) [] 1 0 1).1 rfl,
   (fetch_classification 404 (("x").toList) (("Not Found").toList) 1 0 1).2
     (by decide)⟩

/-- C7: the fetch never raises past its boundary: a transport exception is
mapped to a Failure whose reason is `"Request failed: <detail>"`, and every
call returns a fetch outcome echoing its descriptor. -/
theorem fetch_total (ev : HttpEvent) (d c p : Nat) :
    (∀ detail, get_scores (.exn detail) d c p =
      ⟨false, none, some (("Request failed: ").toList ++ detail), d, c, p⟩) ∧
    ∃ r : FetchResult, get_scores ev d c p = r ∧
      r.display_type = d ∧ r.control_type = c ∧ r.pb_type = p := by
  refine ⟨fun detail => rfl, get_scores ev d c p, rfl, ?_, ?_, ?_⟩ <;>
    rcases ev with ⟨st, t, stx⟩ | dtl <;>
    simp only [get_scores] <;>
    split <;>
    rfl

/-- C6: when zero consumed outcomes were successes, the writer is never
invoked (no archive value is produced) and the total-failure condition
`"No successful archives to compress!"` is reported. -/
theorem zero_success_skips_writer (env : WriterEnv) (date ts : List Char)
    (rs : List FetchResult) (h : (aggregate rs).successful = 0) :
    finalizeRun env date ts (aggregate rs) =
      (none, [("No successful archives to compress!").toList]) := by
  simp [finalizeRun, h]

/-- C6 witness: a run whose two outcomes are both failures skips the writer. -/
theorem zero_success_skips_writer_witness :
    (aggregate [get_scores (.response 500 [] []) 1 0 1,
                get_scores (.exn ("timeout").toList) 1 0 2]).successful = 0 ∧
    finalizeRun ⟨none, none⟩ (("20240101").toList) (("ts").toList)
        (aggregate [get_scores (.response 500 [] []) 1 0 1,
                    get_scores (.exn ("timeout").toList) 1 0 2]) =
      (none, [("No successful archives to compress!").toList]) :=
  ⟨by decide,
   zero_success_skips_writer ⟨none, none⟩ (("20240101").toList) (("ts").toList)
     [get_scores (.response 500 [] []) 1 0 1,
      get_scores (.exn ("timeout").toList) 1 0 2] (by decide)⟩

/-- C8: the archive writer returns the written file's path exactly when every
effectful step succeeded; any failing step yields `None` together with the
`"Failed to compress archive: <detail>"` error report, never a path. -/
theorem writer_failure_reporting (env : WriterEnv) (date ts : List Char)
    (all_data : List (List Char × List Char)) :
    (env.makedirs_error = none → env.write_error = none →
      compress_and_save_archive env date ts all_data =
        (some (("archives/leaderboard_").toList ++ date ++ (".lzma").toList),
         [])) ∧
    (∀ e, env.makedirs_error = some e →
      compress_and_save_archive env date ts all_data =
        (none, [("Failed to compress archive: ").toList ++ e])) ∧
    (env.makedirs_error = none → ∀ e, env.write_error = some e →
      compress_and_save_archive env date ts all_data =
        (none, [("Failed to compress archive: ").toList ++ e])) := by
  rcases env with ⟨me, we⟩
  rcases me with _ | e1 <;> rcases we with _ | e2 <;>
    simp [compress_and_save_archive, writerBody]

/-- C8 witness: the writer applied under an all-success environment and under
a failing write. -/
theorem writer_failure_reporting_witness :
    compress_and_save_archive ⟨none, none⟩ (("20240101").toList) (("ts").toList) []
      = (some (("archives/leaderboard_").toList ++ ("20240101").toList ++
          (".lzma").toList), []) ∧
    compress_and_save_archive ⟨none, some (("disk full").toList)⟩
        (("20240101").toList) (("ts").toList) [] =
      (none, [("Failed to compress archive: ").toList ++ ("disk full").toList]) :=
  ⟨(writer_failure_reporting ⟨none, none⟩ (("20240101").toList) (("ts").toList)
      []).1 rfl rfl,
   (writer_failure_reporting ⟨none, some (("disk full").toList)⟩
      (("20240101").toList) (("ts").toList) []).2.2 rfl _ rfl⟩

/-- C9: a missing authorization token or base URL makes construction fail with
the fatal configuration error, and no fetch is ever attempted. -/
theorem config_missing_aborts (tok db : Option (List Char))
    (h : tok = none ∨ db = none) :
    initArchiver tok db =
      .error (("Missing required environment variables: USER_TOKEN and DB_LINK").toList) ∧
    mainRequests tok db = [] := by
  have hf : (pyFalsy tok || pyFalsy db) = true := by
    rcases h with rfl | rfl <;> simp [pyFalsy]
  constructor
  · simp [initArchiver, hf]
  · simp [mainRequests, initArchiver, hf]

/-- C9 witness: construction with `USER_TOKEN` unset and `DB_LINK` set. -/
theorem config_missing_aborts_witness :
    initArchiver none (some (("http://db").toList)) =
      .error (("Missing required environment variables: USER_TOKEN and DB_LINK").toList) ∧
    mainRequests none (some (("http://db").toList)) = [] :=
  config_missing_aborts none (some (("http://db").toList)) (Or.inl rfl)

/-- C10: a present-but-empty required value is rejected exactly like an absent
one — the construction raises the same configuration error (truthiness, not
presence). -/
theorem config_empty_same_as_missing (tok db : Option (List Char))
    (h : tok = some [] ∨ db = some []) :
    initArchiver tok db =
      .error (("Missing required environment variables: USER_TOKEN and DB_LINK").toList) ∧
    initArchiver tok db = initArchiver none none := by
  have hf : (pyFalsy tok || pyFalsy db) = true := by
    rcases h with rfl | rfl <;> simp [pyFalsy]
  have h1 : initArchiver tok db =
      .error (("Missing required environment variables: USER_TOKEN and DB_LINK").toList) := by
    simp [initArchiver, hf]
  have h2 : initArchiver none none =
      .error (("Missing required environment variables: USER_TOKEN and DB_LINK").toList) := by
    simp [initArchiver, pyFalsy]
  exact ⟨h1, h1.trans h2.symm⟩

/-- C10 witness: an empty token with a nonempty base URL is rejected with the
same error an absent pair produces. -/
theorem config_empty_same_as_missing_witness :
    initArchiver (some []) (some (("http://db").toList)) =
      .error (("Missing required environment variables: USER_TOKEN and DB_LINK").toList) ∧
    initArchiver (some []) (some (("http://db").toList)) =
      initArchiver none none :=
  config_empty_same_as_missing (some []) (some (("http://db").toList))
    (Or.inl rfl)

theorem hexVal_hexDigitChar : ∀ n, n < 16 → hexVal (hexDigitChar n) = some n := by
  decide

theorem parse4Hex_hex4 (n : Nat) (h : n < 65536) (rest : List Char) :
    parse4Hex (hex4 n ++ rest) = some (n, rest) := by
  simp only [hex4, List.cons_append, List.nil_append, parse4Hex,
    hexVal_hexDigitChar _ (Nat.mod_lt _ (by omega)),
    Option.bind_some, Option.pure_def, Option.bind_eq_bind, Option.some_bind]
  congr 1
  congr 1
  omega

theorem toNat_ofNat_valid (n : Nat) (h : n.isValidChar) : (Char.ofNat n).toNat = n := by
  simp [Char.ofNat, h, Char.ofNatAux, Char.toNat, UInt32.toNat, BitVec.toNat_ofNatLt]

theorem psb_unicode (fuel n : Nat) (t : List Char) (hn : n < 65536)
    (hval : n < 55296 ∨ 57343 < n) :
    parseStringBody (fuel + 1) (('\\' :: 'u' :: hex4 n) ++ t) =
      consChar (Char.ofNat n) <$> parseStringBody fuel t := by
  simp only [List.cons_append, parseStringBody, Char.reduceEq, reduceIte,
    List.append_eq]
  rw [parse4Hex_hex4 n hn t]
  have hns : ¬(55296 ≤ n ∧ n ≤ 56319) := by omega
  have hns2 : ¬(56320 ≤ n ∧ n ≤ 57343) := by omega
  simp only [if_neg hns, if_neg hns2]

theorem psb_surrogate (fuel n m : Nat) (t : List Char)
    (hn : 55296 ≤ n ∧ n ≤ 56319) (hm : 56320 ≤ m ∧ m ≤ 57343) :
    parseStringBody (fuel + 1)
      ((('\\' :: 'u' :: hex4 n) ++ ('\\' :: 'u' :: hex4 m)) ++ t) =
      consChar (Char.ofNat ((n - 55296) * 1024 + (m - 56320) + 65536)) <$>
        parseStringBody fuel t := by
  simp only [List.cons_append, List.append_assoc, List.nil_append,
    parseStringBody, Char.reduceEq, reduceIte, List.append_eq]
  rw [parse4Hex_hex4 n (by omega) ('\\' :: 'u' :: (hex4 m ++ t))]
  simp only [if_pos hn, Char.reduceEq, reduceIte, and_self, and_true, true_and]
  rw [parse4Hex_hex4 m (by omega) t]
  simp only [if_pos hm]

theorem parseStringBody_escapeChar (c : Char) (fuel : Nat) (t : List Char) :
    parseStringBody (fuel + 1) (escapeChar c ++ t) =
      consChar c <$> parseStringBody fuel t := by
  have hval : c.toNat < 55296 ∨ (57343 < c.toNat ∧ c.toNat < 1114112) := c.valid
  by_cases h1 : c = '"'
  · have he : escapeChar c = ['\\', '"'] := by simp [escapeChar, h1]
    rw [he]
    simp only [List.cons_append, List.nil_append, List.append_eq,
      parseStringBody, Char.reduceEq, reduceIte]
    rw [h1]
  by_cases h2 : c = '\\'
  · have he : escapeChar c = ['\\', '\\'] := by simp [escapeChar, h1, h2]
    rw [he]
    simp only [List.cons_append, List.nil_append, List.append_eq,
      parseStringBody, Char.reduceEq, reduceIte]
    rw [h2]
  by_cases h3 : c = '\n'
  · have he : escapeChar c = ['\\', 'n'] := by simp [escapeChar, h1, h2, h3]
    rw [he]
    simp only [List.cons_append, List.nil_append, List.append_eq,
      parseStringBody, Char.reduceEq, reduceIte]
    rw [h3]
  by_cases h4 : c = '\r'
  · have he : escapeChar c = ['\\', 'r'] := by simp [escapeChar, h1, h2, h3, h4]
    rw [he]
    simp only [List.cons_append, List.nil_append, List.append_eq,
      parseStringBody, Char.reduceEq, reduceIte]
    rw [h4]
  by_cases h5 : c = '\t'
  · have he : escapeChar c = ['\\', 't'] := by
      simp [escapeChar, h1, h2, h3, h4, h5]
    rw [he]
    simp only [List.cons_append, List.nil_append, List.append_eq,
      parseStringBody, Char.reduceEq, reduceIte]
    rw [h5]
  by_cases h6 : c.toNat = 8
  · have he : escapeChar c = ['\\', 'b'] := by
      simp [escapeChar, h1, h2, h3, h4, h5, h6]
    rw [he]
    simp only [List.cons_append, List.nil_append, List.append_eq,
      parseStringBody, Char.reduceEq, reduceIte]
    rw [← h6, Char.ofNat_toNat]
  by_cases h7 : c.toNat = 12
  · have he : escapeChar c = ['\\', 'f'] := by
      simp [escapeChar, h1, h2, h3, h4, h5, h6, h7]
    rw [he]
    simp only [List.cons_append, List.nil_append, List.append_eq,
      parseStringBody, Char.reduceEq, reduceIte]
    rw [← h7, Char.ofNat_toNat]
  by_cases h8 : 32 ≤ c.toNat ∧ c.toNat ≤ 126
  · have he : escapeChar c = [c] := by
      simp [escapeChar, h1, h2, h3, h4, h5, h6, h7, h8]
    rw [he]
    simp only [List.cons_append, List.nil_append, List.append_eq,
      parseStringBody, if_neg h1, if_neg h2, if_pos h8.1]
  by_cases h9 : c.toNat < 65536
  · have he : escapeChar c = '\\' :: 'u' :: hex4 c.toNat := by
      simp [escapeChar, h1, h2, h3, h4, h5, h6, h7, h8, h9]
    rw [he, psb_unicode fuel c.toNat t h9 (by omega), Char.ofNat_toNat]
  · have he : escapeChar c =
        ('\\' :: 'u' :: hex4 (55296 + (c.toNat - 65536) / 1024)) ++
        ('\\' :: 'u' :: hex4 (56320 + (c.toNat - 65536) % 1024)) := by
      simp [escapeChar, h1, h2, h3, h4, h5, h6, h7, h8, h9]
    rw [he, List.append_assoc]
    rw [← List.append_assoc ('\\' :: 'u' :: hex4 (55296 + (c.toNat - 65536) / 1024))
      ('\\' :: 'u' :: hex4 (56320 + (c.toNat - 65536) % 1024)) t]
    rw [psb_surrogate fuel _ _ t (by omega) (by omega)]
    have hcomb : (55296 + (c.toNat - 65536) / 1024 - 55296) * 1024 +
        (56320 + (c.toNat - 65536) % 1024 - 56320) + 65536 = c.toNat := by omega
    rw [hcomb, Char.ofNat_toNat]

theorem escapeChar_length_pos (c : Char) : 1 ≤ (escapeChar c).length := by
  unfold escapeChar
  repeat' split
  all_goals simp [hex4]

theorem length_le_escapeStr (s : List Char) : s.length ≤ (escapeStr s).length := by
  induction s with
  | nil => simp [escapeStr]
  | cons c s ih =>
    have hc := escapeChar_length_pos c
    simp only [escapeStr, List.flatMap_cons, List.length_append,
      List.length_cons]
    simp only [escapeStr] at ih
    omega

theorem parseStringBody_escape (s : List Char) : ∀ fuel rest, s.length < fuel →
    parseStringBody fuel (escapeStr s ++ '"' :: rest) = some (s, rest) := by
  induction s with
  | nil =>
    intro fuel rest h
    obtain ⟨f, rfl⟩ : ∃ f, fuel = f + 1 := ⟨fuel - 1, by omega⟩
    simp [escapeStr, parseStringBody]
  | cons c s ih =>
    intro fuel rest h
    obtain ⟨f, rfl⟩ : ∃ f, fuel = f + 1 := ⟨fuel - 1, by omega⟩
    have hshape : escapeStr (c :: s) ++ '"' :: rest =
        escapeChar c ++ (escapeStr s ++ '"' :: rest) := by
      simp [escapeStr, List.append_assoc]
    rw [hshape, parseStringBody_escapeChar,
      ih f rest (by simp at h; omega)]
    rfl

theorem parseJString_jstring (s rest : List Char) :
    parseJString (jstring s ++ rest) = some (s, rest) := by
  have hshape : jstring s ++ rest = '"' :: (escapeStr s ++ '"' :: rest) := by
    simp [jstring, List.append_assoc]
  rw [hshape]
  simp only [parseJString, reduceIte]
  exact parseStringBody_escape s _ rest
    (by
      have := length_le_escapeStr s
      simp only [List.length_append, List.length_cons]
      omega)

theorem expectLit_append (lit rest : List Char) :
    expectLit lit (lit ++ rest) = some rest := by
  induction lit with
  | nil => rfl
  | cons c cs ih => simp [expectLit, ih]

theorem serializeEntries_length (doc : List (List Char × List Char)) :
    doc.length ≤ (serializeEntries doc).length := by
  induction doc with
  | nil => simp [serializeEntries]
  | cons kv ds ih =>
    obtain ⟨k, v⟩ := kv
    cases ds with
    | nil => simp [serializeEntries, jstring]
    | cons e ds2 =>
      have hunfold : serializeEntries ((k, v) :: e :: ds2) =
          jstring k ++ ':' :: jstring v ++ ',' :: serializeEntries (e :: ds2) :=
        rfl
      rw [hunfold]
      simp only [List.length_cons, List.length_append, jstring]
      simp only [List.length_cons] at ih
      omega

theorem parseEntriesAux_round (doc : List (List Char × List Char)) :
    ∀ fuel rest, doc ≠ [] → doc.length ≤ fuel →
    parseEntriesAux fuel (serializeEntries doc ++ rbrace :: rest) =
      some (doc, rest) := by
  induction doc with
  | nil => intro _ _ h; exact absurd rfl h
  | cons kv ds ih =>
    obtain ⟨k, v⟩ := kv
    intro fuel rest _ hfuel
    obtain ⟨f, rfl⟩ : ∃ f, fuel = f + 1 :=
      ⟨fuel - 1, by simp only [List.length_cons] at hfuel; omega⟩
    cases ds with
    | nil =>
      have hshape : serializeEntries [(k, v)] ++ rbrace :: rest =
          jstring k ++ (':' :: (jstring v ++ (rbrace :: rest))) := by
        simp [serializeEntries, List.append_assoc]
      rw [hshape]
      have hne : ¬rbrace = ',' := by decide
      simp only [parseEntriesAux, parseJString_jstring, Option.bind_eq_bind,
        Option.some_bind, Char.reduceEq, reduceIte, if_neg hne]
    | cons e ds2 =>
      have hshape : serializeEntries ((k, v) :: e :: ds2) ++ rbrace :: rest =
          jstring k ++ (':' :: (jstring v ++ (',' ::
            (serializeEntries (e :: ds2) ++ rbrace :: rest)))) := by
        simp [serializeEntries, List.append_assoc]
      rw [hshape]
      simp only [parseEntriesAux, parseJString_jstring, Option.bind_eq_bind,
        Option.some_bind, Char.reduceEq, reduceIte]
      rw [ih f rest (by simp) (by simp at hfuel ⊢; omega)]
      rfl

theorem serializeEntries_cons_head (k v : List Char)
    (ds : List (List Char × List Char)) :
    ∃ X, serializeEntries ((k, v) :: ds) = '"' :: X := by
  cases ds with
  | nil =>
    exact ⟨(escapeStr k ++ ['"']) ++ ':' :: jstring v,
      by simp [serializeEntries, jstring, List.append_assoc]⟩
  | cons e ds2 =>
    exact ⟨(escapeStr k ++ ['"']) ++ ':' :: jstring v ++ ',' ::
        serializeEntries (e :: ds2),
      by simp [serializeEntries, jstring, List.append_assoc]⟩

theorem parseObject_serializeDoc (doc : List (List Char × List Char))
    (rest : List Char) :
    parseObject (serializeDoc doc ++ rest) = some (doc, rest) := by
  cases doc with
  | nil =>
    have hshape : serializeDoc ([] : List (List Char × List Char)) ++ rest =
        lbrace :: rbrace :: rest := by
      simp [serializeDoc, serializeEntries]
    rw [hshape]
    simp [parseObject]
  | cons kv ds =>
    obtain ⟨k, v⟩ := kv
    obtain ⟨X, hX⟩ := serializeEntries_cons_head k v ds
    have hshape : serializeDoc ((k, v) :: ds) ++ rest =
        lbrace :: ('"' :: (X ++ rbrace :: rest)) := by
      simp [serializeDoc, List.append_assoc, hX]
    rw [hshape]
    have hq : ¬('"' : Char) = rbrace := by decide
    have hback : ('"' :: (X ++ rbrace :: rest)) =
        serializeEntries ((k, v) :: ds) ++ rbrace :: rest := by
      simp [hX, List.append_assoc]
    simp only [parseObject, reduceIte, if_neg hq, if_pos rfl]
    rw [hback]
    exact parseEntriesAux_round ((k, v) :: ds) _ rest (by simp)
      (by
        have := serializeEntries_length ((k, v) :: ds)
        simp only [List.length_append, List.length_cons] at *
        omega)

theorem parsePayload_serializePayload (ts : List Char)
    (doc : List (List Char × List Char)) :
    parsePayload (serializePayload ts doc) = some (ts, doc) := by
  have hshape : serializePayload ts doc =
      headerChars ++ (jstring ts ++ (midChars ++ (serializeDoc doc ++ [rbrace]))) := by
    simp [serializePayload, List.append_assoc]
  rw [hshape]
  simp only [parsePayload, Option.bind_eq_bind]
  rw [expectLit_append]
  simp only [Option.some_bind]
  rw [parseJString_jstring]
  simp only [Option.some_bind]
  rw [expectLit_append]
  simp only [Option.some_bind]
  rw [parseObject_serializeDoc]
  simp only [Option.some_bind]
  rw [show expectLit [rbrace] [rbrace] = some [] from by
    simpa using expectLit_append [rbrace] []]
  simp

/-- C5: decompressing the produced archive blob and parsing its JSON yields
exactly the timestamp and the in-memory aggregated document that were handed
to the writer (round-trip through serialization and the lossless codec). -/
theorem archive_roundtrip (ts : List Char) (doc : List (List Char × List Char)) :
    parsePayload (lzma_decompress (lzma_compress (serializePayload ts doc))) =
      some (ts, doc) := by
  rw [lzma_decompress, lzma_compress, List.reverse_reverse]
  exact parsePayload_serializePayload ts doc

/-- C4 (amended): two serializations of the same aggregated document (the
same Success outcomes consumed in the same order) differ only in the
timestamp field: both payloads are one common prefix, then the JSON string of
the timestamp, then one common suffix determined by the document. -/
theorem serialization_deterministic (ts1 ts2 : List Char)
    (doc : List (List Char × List Char)) :
    ∃ pre post, serializePayload ts1 doc = pre ++ jstring ts1 ++ post ∧
      serializePayload ts2 doc = pre ++ jstring ts2 ++ post :=
  ⟨headerChars, midChars ++ serializeDoc doc ++ [rbrace],
   by simp [serializePayload, List.append_assoc],
   by simp [serializePayload, List.append_assoc]⟩

/-- C4 counterexample: the same two Success outcomes consumed in the other
order (an identical set, as completion order is unconstrained) yield
pre-compression payloads that differ although the timestamp is identical —
the payloads do not differ only in the timestamp field. -/
theorem serialization_order_counterexample :
    ([get_scores (.response 200 ("a").toList []) 1 0 1,
      get_scores (.response 200 ("b").toList []) 1 0 2].Perm
     [get_scores (.response 200 ("b").toList []) 1 0 2,
      get_scores (.response 200 ("a").toList []) 1 0 1]) ∧
    serializePayload (("T").toList)
        (aggregate [get_scores (.response 200 ("a").toList []) 1 0 1,
                    get_scores (.response 200 ("b").toList []) 1 0 2]).all_data ≠
      serializePayload (("T").toList)
        (aggregate [get_scores (.response 200 ("b").toList []) 1 0 2,
                    get_scores (.response 200 ("a").toList []) 1 0 1]).all_data := by
  decide
